import Mathlib

/-!
Verification of the facial-animation blending engine of the AI_Desktop
repository (ai-conversation-app): the viseme smoothing hook
(`useLipSync.ts`), the character animation resolver
(`useCharacterAnimation`), and the per-frame mesh passes of
`Character.tsx` (lip-sync write, emotion expression write, blink write,
clip selection).

Weights are embedded as rationals (the source uses JS numbers; all the
constants involved are exact decimal fractions), channel-weight maps as
association lists in JS object insertion order, and mesh morph-target
influences as real-valued functions (the blink pass writes values of
`Math.sin`).
-/

namespace AIDesktop

abbrev Channel := String

/-- A JS object mapping channel names to numeric weights, in insertion
order (`{ [key: string]: number }`). -/
abbrev Weights := List (Channel × ℚ)

/-- Lookup of `m[k]`: the first binding of `k`, if any. -/
def lookupW (m : Weights) (k : Channel) : Option ℚ :=
  (m.find? (fun p => p.1 == k)).map Prod.snd

/-- `m[k] || 0`: the bound value, or 0 when the key is absent (JS also
turns a stored 0 into 0 via `|| 0`, which agrees). -/
def getW (m : Weights) (k : Channel) : ℚ :=
  (lookupW m k).getD 0

/-- The keys of a weight map, in insertion order. -/
def keysOf (m : Weights) : List Channel :=
  m.map Prod.fst

/-- `VISEME_TO_MORPH_TARGET` from `useLipSync.ts`: the ARKit-compatible
viseme to morph target mapping, verbatim. -/
def VISEME_TO_MORPH_TARGET : List (String × Weights) :=
  [ ("sil", []),
    ("aa", [("jawOpen", 7/10), ("mouthFunnel", 2/10)]),
    ("ae", [("jawOpen", 5/10), ("mouthStretch", 3/10)]),
    ("ah", [("jawOpen", 4/10), ("mouthShrugLower", 2/10)]),
    ("ao", [("mouthFunnel", 8/10), ("jawOpen", 3/10)]),
    ("aw", [("mouthFunnel", 9/10), ("jawOpen", 4/10)]),
    ("ay", [("jawOpen", 6/10), ("mouthSmileLeft", 3/10), ("mouthSmileRight", 3/10)]),
    ("b", [("mouthClose", 1), ("mouthPressLeft", 5/10), ("mouthPressRight", 5/10)]),
    ("ch", [("mouthShrugUpper", 7/10), ("jawOpen", 2/10)]),
    ("d", [("tongueOut", 6/10), ("jawOpen", 3/10)]),
    ("dh", [("tongueOut", 8/10), ("jawOpen", 2/10)]),
    ("eh", [("jawOpen", 5/10), ("mouthStretch", 2/10)]),
    ("er", [("mouthFunnel", 6/10), ("jawOpen", 3/10)]),
    ("ey", [("jawOpen", 4/10), ("mouthSmileLeft", 4/10), ("mouthSmileRight", 4/10)]),
    ("f", [("mouthLowerDownLeft", 8/10), ("mouthLowerDownRight", 8/10),
           ("mouthUpperUpLeft", 3/10), ("mouthUpperUpRight", 3/10)]),
    ("g", [("jawOpen", 4/10), ("mouthShrugLower", 3/10)]),
    ("hh", [("jawOpen", 3/10), ("mouthDimpleLeft", 2/10), ("mouthDimpleRight", 2/10)]),
    ("ih", [("mouthSmileLeft", 4/10), ("mouthSmileRight", 4/10), ("jawOpen", 2/10)]),
    ("iy", [("mouthSmileLeft", 7/10), ("mouthSmileRight", 7/10), ("jawOpen", 1/10)]),
    ("jh", [("mouthShrugUpper", 8/10), ("jawOpen", 3/10)]),
    ("k", [("jawOpen", 3/10), ("mouthShrugLower", 4/10)]),
    ("l", [("tongueOut", 7/10), ("jawOpen", 2/10)]),
    ("m", [("mouthClose", 1), ("mouthPressLeft", 7/10), ("mouthPressRight", 7/10)]),
    ("n", [("tongueOut", 5/10), ("mouthClose", 3/10)]),
    ("ng", [("jawOpen", 2/10), ("mouthShrugLower", 5/10)]),
    ("ow", [("mouthFunnel", 9/10), ("jawOpen", 4/10)]),
    ("oy", [("mouthFunnel", 7/10), ("mouthSmileLeft", 3/10), ("mouthSmileRight", 3/10)]),
    ("p", [("mouthClose", 1), ("mouthPressLeft", 8/10), ("mouthPressRight", 8/10)]),
    ("r", [("mouthFunnel", 6/10), ("jawOpen", 2/10)]),
    ("s", [("mouthShrugUpper", 6/10), ("mouthShrugLower", 3/10)]),
    ("sh", [("mouthShrugUpper", 8/10), ("mouthFunnel", 4/10)]),
    ("t", [("tongueOut", 6/10), ("jawOpen", 2/10)]),
    ("th", [("tongueOut", 9/10), ("jawOpen", 1/10)]),
    ("uh", [("mouthFunnel", 5/10), ("jawOpen", 3/10)]),
    ("uw", [("mouthFunnel", 1), ("jawOpen", 2/10)]),
    ("v", [("mouthLowerDownLeft", 9/10), ("mouthLowerDownRight", 9/10),
           ("mouthUpperUpLeft", 4/10), ("mouthUpperUpRight", 4/10)]),
    ("w", [("mouthFunnel", 9/10), ("mouthPucker", 7/10)]),
    ("y", [("mouthSmileLeft", 5/10), ("mouthSmileRight", 5/10), ("jawOpen", 2/10)]),
    ("z", [("mouthShrugUpper", 5/10), ("mouthShrugLower", 4/10)]),
    ("zh", [("mouthShrugUpper", 7/10), ("mouthFunnel", 3/10)]) ]

/-- `VISEME_TO_MORPH_TARGET[code] || {}`: table lookup with the empty
set as default for unknown codes. -/
def weightsFor (code : String) : Weights :=
  ((VISEME_TO_MORPH_TARGET.find? (fun p => p.1 == code)).map Prod.snd).getD []

/-- `interpolateValue` from `useLipSync.ts`:
`current + (target - current) * factor`. -/
def interpolateValue (current target factor : ℚ) : ℚ :=
  current + (target - current) * factor

/-- `scaledTargets` in the speaking branch of the `useLipSync` effect:
each table value for the event's phoneme multiplied by
`intensity * visemeData.intensity` (hook gain times event intensity). -/
def scaledTargets (phoneme : String) (intensity eventIntensity : ℚ) : Weights :=
  (weightsFor phoneme).map (fun p => (p.1, p.2 * intensity * eventIntensity))

/-- `new Set([...Object.keys(prev), ...Object.keys(scaledTargets)])`:
the union of the two key lists, previous keys first, insertion order. -/
def keysUnion (prev scaled : Weights) : List Channel :=
  keysOf prev ++ (keysOf scaled).filter (fun k => ¬ k ∈ keysOf prev)

/-- The speaking branch of the `useLipSync` effect: smooth every channel
in the union of the previous keys and the scaled-target keys toward its
scaled target (0 for channels absent from the target) with factor
`1 - smoothing`. -/
def lipSyncUpdateSpeaking (prev : Weights) (phoneme : String)
    (smoothing intensity eventIntensity : ℚ) : Weights :=
  let scaled := scaledTargets phoneme intensity eventIntensity
  (keysUnion prev scaled).map
    (fun k => (k, interpolateValue (getW prev k) (getW scaled k) (1 - smoothing)))

/-- The not-speaking branch of the `useLipSync` effect: every previous
channel is smoothed toward target 0 with factor `1 - smoothing`; the
result is built in a fresh object holding exactly the previous keys. -/
def lipSyncUpdateSilent (prev : Weights) (smoothing : ℚ) : Weights :=
  prev.map (fun p => (p.1, interpolateValue p.2 0 (1 - smoothing)))

/-- `n` consecutive not-speaking passes. -/
def silentIter (smoothing : ℚ) : ℕ → Weights → Weights
  | 0, prev => prev
  | n + 1, prev => silentIter smoothing n (lipSyncUpdateSilent prev smoothing)

/-- The smoothing recurrence on a single channel held at a constant
target `T`: `n` applications of `interpolateValue · T (1 - s)`. -/
def iterateSmooth (s T : ℚ) : ℕ → ℚ → ℚ
  | 0, w => w
  | n + 1, w => iterateSmooth s T n (interpolateValue w T (1 - s))

/-- The state returned by `useCharacterAnimation`. -/
structure AnimState where
  currentAnimation : String
  animationSpeed : ℚ
  bodyPose : String
deriving DecidableEq, Repr

/-- The first `useCharacterAnimation` effect (deps `[isListening,
isSpeaking]`): speaking wins over listening, else idle. -/
def modeEffect (isListening isSpeaking : Bool) : AnimState :=
  if isSpeaking then ⟨"talking", 12/10, "engaged"⟩
  else if isListening then ⟨"listening", 8/10, "attentive"⟩
  else ⟨"idle", 1, "neutral"⟩

/-- The second `useCharacterAnimation` effect (deps `[emotion]`): the
switch over the emotion tag, overriding body pose and speed for the four
known tags and keeping the current state otherwise; the clip name is
never touched. -/
def emotionEffect (emotion : String) (st : AnimState) : AnimState :=
  if emotion = "happy" then { st with bodyPose := "cheerful", animationSpeed := 13/10 }
  else if emotion = "sad" then { st with bodyPose := "dejected", animationSpeed := 7/10 }
  else if emotion = "excited" then { st with bodyPose := "energetic", animationSpeed := 15/10 }
  else if emotion = "calm" then { st with bodyPose := "relaxed", animationSpeed := 9/10 }
  else st

/-- The initial-mount render of `useCharacterAnimation`: on mount both
effects run, in declaration order (mode first, emotion second). This is
also the resolution whenever all inputs change together. -/
def useCharacterAnimation (isListening isSpeaking : Bool) (emotion : String) : AnimState :=
  emotionEffect emotion (modeEffect isListening isSpeaking)

/-- One subsequent render of `useCharacterAnimation` after an input
change, with React dependency tracking: the first effect (deps
`[isListening, isSpeaking]`) re-runs only when listening or speaking
changed, the second effect (deps `[emotion]`) re-runs only when the
emotion changed; when both re-run they run in declaration order.
`prevInputs` are the inputs of the previous render, `anim` the state it
left behind. -/
def useCharacterAnimationStep (prevInputs : Bool × Bool × String)
    (anim : AnimState) (isListening isSpeaking : Bool) (emotion : String) : AnimState :=
  let a1 := if prevInputs.1 = isListening ∧ prevInputs.2.1 = isSpeaking then anim
            else modeEffect isListening isSpeaking
  if prevInputs.2.2 = emotion then a1 else emotionEffect emotion a1

/-- The mixer-and-actions state of `AvatarModel`: the available clip
names (`Object.keys(actionsRef.current)`) and the names of the actions
currently playing. -/
structure ActionsState where
  actions : List String
  playing : List String
deriving DecidableEq, Repr

/-- `toLowerCase()`: every character lowercased (`Char.toLower` maps
the basic latin range, which covers the clip and state names used
here). -/
def jsToLower (s : String) : String :=
  ⟨s.data.map Char.toLower⟩

/-- `name.toLowerCase().includes(sub)`: `sub` occurs contiguously in
the lowercased `name`. -/
def nameContains (name sub : String) : Bool :=
  decide (sub.data <:+: (jsToLower name).data)

/-- The animation-change effect of `AvatarModel`: stop all current
actions, pick the first available clip whose lowercased name contains
the lowercased requested name, else the first whose name contains
"idle", and play it if found (otherwise nothing plays). -/
def handleAnimationChange (currentAnimation : String) (st : ActionsState) : ActionsState :=
  let stopped : ActionsState := { st with playing := [] }
  let animationName := jsToLower currentAnimation
  let targetAction : Option String :=
    match st.actions.find? (fun n => nameContains n animationName) with
    | some n => some n
    | none => st.actions.find? (fun n => nameContains n "idle")
  match targetAction with
  | some n => { stopped with playing := [n] }
  | none => stopped

/-- A skinned mesh's morph targets: `has` is membership of a channel in
`morphTargetDictionary`, `infl` the `morphTargetInfluences` entry looked
up through the dictionary. Influences are real-valued (the blink pass
writes `Math.sin` values). -/
structure Mesh where
  has : Channel → Bool
  infl : Channel → ℝ

/-- A guarded influence write: `if index !== undefined`
then `morphTargetInfluences[index] = value`. -/
def setWeight (m : Mesh) (k : Channel) (v : ℝ) : Mesh :=
  if m.has k then { m with infl := fun c => if c = k then v else m.infl c } else m

/-- The lip-sync effect of `AvatarModel`: write every entry of
`lipSyncMorphTargets` to the mesh, in object order. -/
def lipSyncPass (lip : List (Channel × ℝ)) (m : Mesh) : Mesh :=
  lip.foldl (fun acc p => setWeight acc p.1 p.2) m

/-- `emotionTargets` from the expression effect of `AvatarModel`: the
fixed set of expression channels reset to 0 each pass. -/
def emotionTargets : List Channel :=
  ["mouthSmileLeft", "mouthSmileRight", "mouthFrownLeft", "mouthFrownRight",
   "jawOpen", "eyeWideLeft", "eyeWideRight"]

/-- The expression effect of `AvatarModel`: reset the expression
channels to 0, then apply the static override of the matched emotion
(smiles 0.7 for happy, frowns 0.5 for sad, jaw 0.3 and wide eyes 0.8
for surprised, nothing otherwise). -/
noncomputable def emotionPass (emotion : String) (m : Mesh) : Mesh :=
  let reset := emotionTargets.foldl (fun acc k => setWeight acc k 0) m
  if emotion = "happy" then
    ["mouthSmileLeft", "mouthSmileRight"].foldl (fun acc k => setWeight acc k (7/10)) reset
  else if emotion = "sad" then
    ["mouthFrownLeft", "mouthFrownRight"].foldl (fun acc k => setWeight acc k (5/10)) reset
  else if emotion = "surprised" then
    setWeight (setWeight (setWeight reset "jawOpen" (3/10)) "eyeWideLeft" (8/10))
      "eyeWideRight" (8/10)
  else reset

/-- `blinkFrequency` of the `useFrame` blink block: the 3-second blink
period. -/
def blinkFrequency : ℚ := 3

/-- `blinkDuration`: the 0.15-second active blink window. -/
def blinkDuration : ℚ := 15/100

/-- `blinkPhase = (time % blinkFrequency) / blinkFrequency`. Elapsed
clock time is non-negative, where the JS `%` agrees with floor-mod. -/
def blinkPhase (t : ℚ) : ℚ :=
  (t - blinkFrequency * ⌊t / blinkFrequency⌋) / blinkFrequency

/-- The fraction of the period that is the active window:
`blinkDuration / blinkFrequency` (= 1/20). -/
def windowFrac : ℚ := blinkDuration / blinkFrequency

/-- The guard `blinkPhase < blinkDuration / blinkFrequency` of the blink
block. -/
def inWindow (t : ℚ) : Prop := blinkPhase t < windowFrac

instance (t : ℚ) : Decidable (inWindow t) := by
  unfold inWindow; infer_instance

/-- The pulse shape as a function of the phase:
`Math.sin((blinkPhase / (blinkDuration / blinkFrequency)) * Math.PI)`. -/
noncomputable def pulse (p : ℚ) : ℝ :=
  Real.sin (((p : ℝ) / ((windowFrac : ℚ) : ℝ)) * Real.pi)

/-- `blinkAmount` computed inside the active window. -/
noncomputable def blinkAmount (t : ℚ) : ℝ := pulse (blinkPhase t)

/-- The blink layer's weight at elapsed time `t`: the sine pulse inside
the active window, 0 (no contribution) outside it. -/
noncomputable def blinkWeight (t : ℚ) : ℝ :=
  if inWindow t then blinkAmount t else 0

/-- The blink block of `useFrame`: inside the active window write
`blinkAmount` to both eye-closure channels (left then right); outside
it, write nothing. -/
noncomputable def blinkPass (t : ℚ) (m : Mesh) : Mesh :=
  if inWindow t then
    setWeight (setWeight m "eyeBlinkLeft" (blinkAmount t)) "eyeBlinkRight" (blinkAmount t)
  else m

/-- One full frame in which all three mesh-writing passes run, in their
declaration order in `AvatarModel`: the lip-sync effect, then the
expression effect, then the `useFrame` blink block. -/
noncomputable def frame (emotion : String) (lip : List (Channel × ℝ)) (t : ℚ)
    (m : Mesh) : Mesh :=
  blinkPass t (emotionPass emotion (lipSyncPass lip m))

/-- A mesh carrying every channel, with all influences 0. -/
def allZeroMesh : Mesh := ⟨fun _ => true, fun _ => 0⟩

/-! ### Lemmas about weight-map lookup -/

theorem getW_nil (x : Channel) : getW [] x = 0 := rfl

theorem getW_cons (k : Channel) (v : ℚ) (t : Weights) (x : Channel) :
    getW ((k, v) :: t) x = if k = x then v else getW t x := by
  by_cases h : k = x <;> simp [getW, lookupW, List.find?_cons, h]

theorem getW_eq_zero_of_not_mem (l : Weights) (x : Channel) (h : ¬ x ∈ keysOf l) :
    getW l x = 0 := by
  induction l with
  | nil => rfl
  | cons p t ih =>
    obtain ⟨k, v⟩ := p
    simp only [keysOf, List.map_cons, List.mem_cons] at h
    push_neg at h
    rw [getW_cons, if_neg (fun hkx => h.1 hkx.symm)]
    exact ih (by simpa [keysOf] using h.2)

theorem getW_map_value (f : ℚ → ℚ) (hf : f 0 = 0) (l : Weights) (x : Channel) :
    getW (l.map (fun p => (p.1, f p.2))) x = f (getW l x) := by
  induction l with
  | nil => simp [getW_nil, hf]
  | cons p t ih =>
    obtain ⟨k, v⟩ := p
    by_cases h : k = x <;> simp [getW_cons, h, ih]

theorem getW_map_key (g : Channel → ℚ) (l : List Channel) (x : Channel) :
    getW (l.map (fun k => (k, g k))) x = if x ∈ l then g x else 0 := by
  induction l with
  | nil => simp [getW_nil]
  | cons k t ih =>
    by_cases h : k = x
    · subst h; simp [getW_cons]
    · simp [getW_cons, h, ih, Ne.symm h]

theorem mem_keysUnion (prev scaled : Weights) (x : Channel) :
    x ∈ keysUnion prev scaled ↔ x ∈ keysOf prev ∨ x ∈ keysOf scaled := by
  simp only [keysUnion, List.mem_append, List.mem_filter, decide_eq_true_eq]
  constructor
  · rintro (h | ⟨h, _⟩)
    · exact Or.inl h
    · exact Or.inr h
  · rintro (h | h)
    · exact Or.inl h
    · by_cases hp : x ∈ keysOf prev
      · exact Or.inl hp
      · exact Or.inr ⟨h, hp⟩

theorem keysOf_lipSyncUpdateSpeaking (prev : Weights) (phoneme : String)
    (s g i : ℚ) :
    keysOf (lipSyncUpdateSpeaking prev phoneme s g i)
      = keysUnion prev (scaledTargets phoneme g i) := by
  simp [lipSyncUpdateSpeaking, keysOf, List.map_map, Function.comp_def]

theorem interpolateValue_zero (f : ℚ) : interpolateValue 0 0 f = 0 := by
  simp [interpolateValue]

/-! ### Claim theorems for the viseme smoothing layer -/

/-- C1. The speaking-branch update of `useLipSync` performs, on every
channel, first-order exponential smoothing
`newWeight = oldWeight + (target - oldWeight) * (1 - smoothing)` toward
the target set obtained from the phoneme table entry scaled by
`intensityGain * event.intensity` (target 0 for channels absent from the
entry), the result map holding exactly the union of the previous keys
and the target keys; in particular phoneme "aa" at event intensity 1,
smoothing 0.3, gain 1 and previous jaw-open weight 0 yields jaw-open
weight 0.49 after one update. -/
theorem lipSync_speaking_smoothing :
    (∀ (prev : Weights) (code : String) (s g i : ℚ) (k : Channel),
      getW (lipSyncUpdateSpeaking prev code s g i) k
        = interpolateValue (getW prev k) (getW (scaledTargets code g i) k) (1 - s)) ∧
    (∀ (code : String) (g i : ℚ) (k : Channel),
      getW (scaledTargets code g i) k = getW (weightsFor code) k * g * i) ∧
    (∀ (prev : Weights) (code : String) (s g i : ℚ),
      keysOf (lipSyncUpdateSpeaking prev code s g i)
        = keysUnion prev (scaledTargets code g i)) ∧
    getW (lipSyncUpdateSpeaking [] "aa" (3/10) 1 1) "jawOpen" = 49/100 := by
  have haa : weightsFor "aa" = [("jawOpen", 7/10), ("mouthFunnel", 2/10)] := rfl
  refine ⟨?_, ?_, keysOf_lipSyncUpdateSpeaking, ?_⟩
  · intro prev code s g i k
    unfold lipSyncUpdateSpeaking
    rw [getW_map_key]
    split
    · rfl
    · rename_i h
      rw [mem_keysUnion] at h
      push_neg at h
      rw [getW_eq_zero_of_not_mem _ _ h.1, getW_eq_zero_of_not_mem _ _ h.2,
        interpolateValue_zero]
  · intro code g i k
    unfold scaledTargets
    rw [getW_map_value (fun v => v * g * i) (by ring)]
  · simp [lipSyncUpdateSpeaking, scaledTargets, haa, keysUnion, keysOf,
      getW_cons, getW_nil, interpolateValue]
    norm_num

theorem getW_lipSyncUpdateSilent (prev : Weights) (s : ℚ) (k : Channel) :
    getW (lipSyncUpdateSilent prev s) k = getW prev k * s := by
  unfold lipSyncUpdateSilent
  rw [getW_map_value (fun v => interpolateValue v 0 (1 - s)) (by simp [interpolateValue])]
  simp [interpolateValue]; ring

theorem getW_silentIter (s : ℚ) (n : ℕ) (prev : Weights) (k : Channel) :
    getW (silentIter s n prev) k = getW prev k * s ^ n := by
  induction n generalizing prev with
  | zero => simp [silentIter]
  | succ n ih =>
    rw [silentIter, ih, getW_lipSyncUpdateSilent]
    ring

/-- C2 (counterexample): the speaking-false transition does not reset
the persistent smoothed-weight map. One not-speaking pass from a state
with jaw-open weight 0.49 at smoothing 0.3 leaves the non-empty map
`{jawOpen: 0.147}` — a residual non-zero weight that the next utterance
starts smoothing from, rather than an empty (reset) state. -/
theorem lipSync_silent_no_reset_counterexample :
    lipSyncUpdateSilent [("jawOpen", 49/100)] (3/10) = [("jawOpen", 147/1000)] ∧
    (147/1000 : ℚ) ≠ 0 := by
  constructor
  · simp [lipSyncUpdateSilent, interpolateValue]
    norm_num
  · norm_num

/-- C2 (amended): when speaking is false (or no event is active) every
channel of the previous map is smoothed toward target 0, so after `n`
not-speaking passes each weight equals its previous value times
`smoothing^n`; with the default smoothing 0.3 any weight of magnitude at
most 1 is within 1e-3 of 0 after 6 passes. The map itself is never
emptied: entries persist (decaying geometrically) across the
speaking-false transition, so the layer's state is not reset. -/
theorem lipSync_silent_decay (prev : Weights) (s : ℚ) (k : Channel) (n : ℕ)
    (h : |getW prev k| ≤ 1) :
    getW (silentIter s n prev) k = getW prev k * s ^ n ∧
    keysOf (lipSyncUpdateSilent prev s) = keysOf prev ∧
    |getW (silentIter (3/10) 6 prev) k| ≤ 1/1000 := by
  refine ⟨getW_silentIter s n prev k, ?_, ?_⟩
  · simp [lipSyncUpdateSilent, keysOf, List.map_map, Function.comp_def]
  · rw [getW_silentIter, abs_mul, abs_pow]
    have h2 : |(3/10 : ℚ)| ^ 6 = 729/1000000 := by
      rw [abs_of_nonneg (by norm_num : (0:ℚ) ≤ 3/10)]; norm_num
    rw [h2]
    nlinarith [abs_nonneg (getW prev k)]

/-- C2 (witness). -/
theorem lipSync_silent_decay_witness :
    |getW [("jawOpen", (49:ℚ)/100)] "jawOpen"| ≤ 1 ∧
    (getW (silentIter (3/10) 1 [("jawOpen", 49/100)]) "jawOpen"
        = getW [("jawOpen", (49:ℚ)/100)] "jawOpen" * (3/10) ^ 1 ∧
      keysOf (lipSyncUpdateSilent [("jawOpen", (49:ℚ)/100)] (3/10))
        = keysOf [("jawOpen", (49:ℚ)/100)] ∧
      |getW (silentIter (3/10) 6 [("jawOpen", (49:ℚ)/100)]) "jawOpen"| ≤ 1/1000) := by
  have h : |getW [("jawOpen", (49:ℚ)/100)] "jawOpen"| ≤ 1 := by
    simp [getW_cons]
    rw [abs_of_nonneg (by norm_num : (0:ℚ) ≤ 49/100)]
    norm_num
  exact ⟨h, lipSync_silent_decay [("jawOpen", 49/100)] (3/10) "jawOpen" 1 h⟩

/-- C7. Every phoneme code not present in `VISEME_TO_MORPH_TARGET`
resolves to the empty channel set (the lookup is total — no error path
exists). -/
theorem weightsFor_unknown (code : String)
    (h : ¬ code ∈ VISEME_TO_MORPH_TARGET.map Prod.fst) :
    weightsFor code = [] := by
  unfold weightsFor
  rw [List.find?_eq_none.mpr]
  · rfl
  · intro p hp
    simp only [beq_iff_eq]
    intro hpc
    exact h (List.mem_map.mpr ⟨p, hp, hpc⟩)

/-- C7 (witness). -/
theorem weightsFor_unknown_witness :
    ¬ "xq" ∈ VISEME_TO_MORPH_TARGET.map Prod.fst ∧ weightsFor "xq" = [] := by
  have h : ¬ "xq" ∈ VISEME_TO_MORPH_TARGET.map Prod.fst := by decide
  exact ⟨h, weightsFor_unknown "xq" h⟩

theorem iterateSmooth_sub (s T : ℚ) (n : ℕ) (w : ℚ) :
    iterateSmooth s T n w - T = (w - T) * s ^ n := by
  induction n generalizing w with
  | zero => simp [iterateSmooth]
  | succ n ih =>
    rw [iterateSmooth, ih]
    simp only [interpolateValue]
    ring

/-- C8 (counterexample): with smoothing factor 1/2 (in [0,1)), target
5 held for one update and initial weight 0, the smoothed weight is 5/2,
at distance 5/2 from the target — not within `smoothing^1 = 1/2`. The
claimed `s^N` bound fails when the initial weight is farther than 1
from the target. -/
theorem iterateSmooth_bound_counterexample :
    (0 ≤ (1/2 : ℚ) ∧ (1/2 : ℚ) < 1) ∧
    iterateSmooth (1/2) 5 1 0 = 5/2 ∧
    ¬ |iterateSmooth (1/2) 5 1 0 - 5| ≤ (1/2 : ℚ) ^ 1 := by
  have h : iterateSmooth (1/2 : ℚ) 5 1 0 = 5/2 := by
    simp [iterateSmooth, interpolateValue]
    norm_num
  refine ⟨⟨by norm_num, by norm_num⟩, h, ?_⟩
  rw [h]
  rw [abs_of_nonpos (by norm_num : (5/2 : ℚ) - 5 ≤ 0)]
  norm_num

/-- C8 (amended): holding a constant target `T` for `N` updates with
smoothing factor `s` in [0,1), the smoothed weight satisfies
`w_N - T = (w_0 - T)·s^N`, approaches `T` monotonically (the distance to
`T` never increases, and the iterates move toward `T` from their
starting side without overshoot), and is within `|w_0 - T|·s^N` of `T`;
in particular it is within `s^N` of `T` whenever the initial weight is
within distance 1 of the target (e.g. both in [0,1]). -/
theorem iterateSmooth_convergence (s T w : ℚ) (n : ℕ)
    (hs0 : 0 ≤ s) (hs1 : s < 1) :
    (iterateSmooth s T n w - T = (w - T) * s ^ n) ∧
    |iterateSmooth s T (n + 1) w - T| ≤ |iterateSmooth s T n w - T| ∧
    (w ≤ T → iterateSmooth s T n w ≤ iterateSmooth s T (n + 1) w ∧
      iterateSmooth s T n w ≤ T) ∧
    (T ≤ w → iterateSmooth s T (n + 1) w ≤ iterateSmooth s T n w ∧
      T ≤ iterateSmooth s T n w) ∧
    |iterateSmooth s T n w - T| = |w - T| * s ^ n ∧
    (|w - T| ≤ 1 → |iterateSmooth s T n w - T| ≤ s ^ n) := by
  have hpow : (0:ℚ) ≤ s ^ n := pow_nonneg hs0 n
  have hpow1 : s ^ (n + 1) ≤ s ^ n := by
    calc s ^ (n + 1) = s ^ n * s := by ring
    _ ≤ s ^ n * 1 := by nlinarith
    _ = s ^ n := by ring
  have hpow1n : (0:ℚ) ≤ s ^ (n + 1) := pow_nonneg hs0 (n + 1)
  have habs : ∀ m : ℕ, |iterateSmooth s T m w - T| = |w - T| * s ^ m := by
    intro m
    rw [iterateSmooth_sub, abs_mul, abs_pow, abs_of_nonneg hs0]
  refine ⟨iterateSmooth_sub s T n w, ?_, ?_, ?_, habs n, ?_⟩
  · rw [habs, habs]
    nlinarith [abs_nonneg (w - T)]
  · intro hwT
    have h1 := iterateSmooth_sub s T n w
    have h2 := iterateSmooth_sub s T (n + 1) w
    constructor
    · nlinarith
    · nlinarith
  · intro hwT
    have h1 := iterateSmooth_sub s T n w
    have h2 := iterateSmooth_sub s T (n + 1) w
    constructor
    · nlinarith
    · nlinarith
  · intro hw1
    rw [habs]
    nlinarith

/-- C8 (witness). -/
theorem iterateSmooth_convergence_witness :
    (0 ≤ (3/10 : ℚ) ∧ (3/10 : ℚ) < 1 ∧ |(0 : ℚ) - 7/10| ≤ 1) ∧
    (iterateSmooth (3/10) (7/10) 1 0 - 7/10 = ((0:ℚ) - 7/10) * (3/10) ^ 1) ∧
    |iterateSmooth (3/10) (7/10) 1 0 - 7/10| ≤ (3/10 : ℚ) ^ 1 := by
  have h0 : (0 ≤ (3/10 : ℚ)) := by norm_num
  have h1 : ((3/10 : ℚ) < 1) := by norm_num
  have h2 : |(0 : ℚ) - 7/10| ≤ 1 := by
    rw [abs_of_nonpos (by norm_num : (0 : ℚ) - 7/10 ≤ 0)]
    norm_num
  have main := iterateSmooth_convergence (3/10) (7/10) 0 1 h0 h1
  exact ⟨⟨h0, h1, h2⟩, main.1, main.2.2.2.2.2 h2⟩

/-- C10. Across invocations of the lip-sync update the key set of the
returned morph-target map never shrinks: the speaking branch returns a
map over the union of the previous keys and the scaled-target keys, and
the not-speaking branch keeps exactly the previous keys while decaying
their values — no entry is ever deleted. -/
theorem lipSync_keys_never_shrink (prev : Weights) (code : String)
    (s g i : ℚ) (k : Channel) (h : k ∈ keysOf prev) :
    k ∈ keysOf (lipSyncUpdateSpeaking prev code s g i) ∧
    keysOf (lipSyncUpdateSilent prev s) = keysOf prev := by
  constructor
  · rw [keysOf_lipSyncUpdateSpeaking, mem_keysUnion]
    exact Or.inl h
  · simp [lipSyncUpdateSilent, keysOf, List.map_map, Function.comp_def]

/-- C10 (witness). -/
theorem lipSync_keys_never_shrink_witness :
    "jawOpen" ∈ keysOf [("jawOpen", (49:ℚ)/100)] ∧
    ("jawOpen" ∈ keysOf (lipSyncUpdateSpeaking [("jawOpen", (49:ℚ)/100)] "sil" (3/10) 1 1) ∧
      keysOf (lipSyncUpdateSilent [("jawOpen", (49:ℚ)/100)] (3/10))
        = keysOf [("jawOpen", (49:ℚ)/100)]) := by
  have h : "jawOpen" ∈ keysOf [("jawOpen", (49:ℚ)/100)] := by
    simp [keysOf]
  exact ⟨h, lipSync_keys_never_shrink [("jawOpen", 49/100)] "sil" (3/10) 1 1 "jawOpen" h⟩

/-! ### Claim theorems for the animation state resolver -/

/-- C4 (counterexample): the emotion override is not reapplied when
only listening/speaking change, so emotion "happy" does not always
yield speed 1.3 and pose "cheerful". Mount with
(listening=false, speaking=false, emotion="happy") — state
(idle, 1.3, cheerful) — then let speaking become true with the emotion
unchanged: only the mode effect re-runs, leaving
(talking, 1.2, engaged), with speed 1.2 ≠ 1.3 and pose ≠ "cheerful"
although the emotion is still "happy". -/
theorem characterAnimation_stale_override_counterexample :
    useCharacterAnimation false false "happy" = ⟨"idle", 13/10, "cheerful"⟩ ∧
    useCharacterAnimationStep (false, false, "happy")
        (useCharacterAnimation false false "happy") false true "happy"
      = ⟨"talking", 12/10, "engaged"⟩ ∧
    (12/10 : ℚ) ≠ 13/10 ∧ "engaged" ≠ "cheerful" := by
  refine ⟨?_, ?_, by norm_num, by decide⟩
  · simp [useCharacterAnimation, emotionEffect, modeEffect]
  · simp [useCharacterAnimationStep, useCharacterAnimation, emotionEffect, modeEffect]

/-- C4 (amended): on any render where the emotion effect runs after the
mode effect (the initial mount, or whenever the emotion input changes),
the fixed mapping applies — happy→(1.3, cheerful), sad→(0.7, dejected),
excited→(1.5, energetic), calm→(0.9, relaxed) — over the current state,
an unknown tag applied at mount yields the plain listening/speaking
resolution, and no emotion ever changes the clip name. The override is
not level-held, however: a change of listening or speaking alone
re-resolves speed and pose from the mode mapping, discarding the
emotion override even though the emotion is unchanged; and an emotion
change to an unknown tag keeps the current (possibly overridden) speed
and pose rather than restoring the listening/speaking resolution. -/
theorem characterAnimation_emotion_override_stateful (l s l2 s2 : Bool)
    (e e2 : String) (anim : AnimState) :
    (useCharacterAnimation l s "happy"
      = { modeEffect l s with animationSpeed := 13/10, bodyPose := "cheerful" } ∧
     useCharacterAnimation l s "sad"
      = { modeEffect l s with animationSpeed := 7/10, bodyPose := "dejected" } ∧
     useCharacterAnimation l s "excited"
      = { modeEffect l s with animationSpeed := 15/10, bodyPose := "energetic" } ∧
     useCharacterAnimation l s "calm"
      = { modeEffect l s with animationSpeed := 9/10, bodyPose := "relaxed" }) ∧
    (useCharacterAnimation l s e).currentAnimation = (modeEffect l s).currentAnimation ∧
    (emotionEffect e anim).currentAnimation = anim.currentAnimation ∧
    (¬ e ∈ ["happy", "sad", "excited", "calm"] →
      useCharacterAnimation l s e = modeEffect l s) ∧
    (¬ (l = l2 ∧ s = s2) →
      useCharacterAnimationStep (l, s, e) anim l2 s2 e = modeEffect l2 s2) ∧
    (e ≠ e2 → useCharacterAnimationStep (l, s, e) anim l s e2 = emotionEffect e2 anim) ∧
    (¬ e2 ∈ ["happy", "sad", "excited", "calm"] → emotionEffect e2 anim = anim) := by
  refine ⟨⟨?_, ?_, ?_, ?_⟩, ?_, ?_, ?_, ?_, ?_, ?_⟩
  · simp [useCharacterAnimation, emotionEffect]
  · simp [useCharacterAnimation, emotionEffect]
  · simp [useCharacterAnimation, emotionEffect]
  · simp [useCharacterAnimation, emotionEffect]
  · unfold useCharacterAnimation emotionEffect
    split_ifs <;> rfl
  · unfold emotionEffect
    split_ifs <;> rfl
  · intro h
    simp only [List.mem_cons, List.not_mem_nil, or_false] at h
    push_neg at h
    obtain ⟨h1, h2, h3, h4⟩ := h
    simp [useCharacterAnimation, emotionEffect, h1, h2, h3, h4]
  · intro h
    simp [useCharacterAnimationStep, h]
  · intro h
    simp [useCharacterAnimationStep, h]
  · intro h
    simp only [List.mem_cons, List.not_mem_nil, or_false] at h
    push_neg at h
    obtain ⟨h1, h2, h3, h4⟩ := h
    simp [emotionEffect, h1, h2, h3, h4]

/-- C4 (witness). -/
theorem characterAnimation_emotion_override_stateful_witness :
    ¬ "angry" ∈ ["happy", "sad", "excited", "calm"] ∧
    ¬ (false = false ∧ false = true) ∧
    "happy" ≠ "angry" ∧
    useCharacterAnimation false false "angry" = modeEffect false false ∧
    useCharacterAnimationStep (false, false, "happy")
        ⟨"idle", 13/10, "cheerful"⟩ false true "happy" = modeEffect false true ∧
    useCharacterAnimationStep (false, false, "happy")
        ⟨"idle", 13/10, "cheerful"⟩ false false "angry"
      = emotionEffect "angry" ⟨"idle", 13/10, "cheerful"⟩ ∧
    emotionEffect "angry" (⟨"idle", 13/10, "cheerful"⟩ : AnimState)
      = ⟨"idle", 13/10, "cheerful"⟩ := by
  have hmem : ¬ "angry" ∈ ["happy", "sad", "excited", "calm"] := by decide
  have hmode : ¬ (false = false ∧ false = true) := by decide
  have hne : "happy" ≠ "angry" := by decide
  have main := characterAnimation_emotion_override_stateful false false false true
    "angry" "x" (⟨"idle", 13/10, "cheerful"⟩ : AnimState)
  have main2 := characterAnimation_emotion_override_stateful false false false true
    "happy" "angry" (⟨"idle", 13/10, "cheerful"⟩ : AnimState)
  refine ⟨hmem, hmode, hne, main.2.2.2.1 hmem, main2.2.2.2.2.1 hmode, ?_, ?_⟩
  · exact main2.2.2.2.2.2.1 hne
  · exact main2.2.2.2.2.2.2 hmem

/-! ### Claim theorems for clip selection -/

/-- C5 (counterexample): when neither the requested name nor any
idle-named clip matches, the last playing clip does NOT continue. With
available clip set {"walk"} and "walk" playing, the animation change to
"talking" first stops every action and then finds nothing to play, so
nothing is playing afterwards. -/
theorem handleAnimationChange_halt_counterexample :
    handleAnimationChange "talking" ⟨["walk"], ["walk"]⟩
      = ⟨["walk"], []⟩ ∧
    (handleAnimationChange "talking" ⟨["walk"], ["walk"]⟩).playing ≠ ["walk"] := by
  constructor
  · decide
  · decide

/-- C5 (amended): on every animation-state change all current actions
are first stopped; then the requested clip name is matched by substring
(lowercased) against the available clip names and the first match is
played; if none matches, the first idle-named clip is played as
fallback; and if no clip can be found at all, nothing is played — since
every action was already stopped, playback halts rather than the last
playing clip continuing. -/
theorem handleAnimationChange_cases (anim : String) :
    (∀ (st : ActionsState) (n : String),
      st.actions.find? (fun m => nameContains m (jsToLower anim)) = some n →
      handleAnimationChange anim st = ⟨st.actions, [n]⟩) ∧
    (∀ (st : ActionsState) (n : String),
      st.actions.find? (fun m => nameContains m (jsToLower anim)) = none →
      st.actions.find? (fun m => nameContains m "idle") = some n →
      handleAnimationChange anim st = ⟨st.actions, [n]⟩) ∧
    (∀ st : ActionsState,
      st.actions.find? (fun m => nameContains m (jsToLower anim)) = none →
      st.actions.find? (fun m => nameContains m "idle") = none →
      handleAnimationChange anim st = ⟨st.actions, []⟩) := by
  refine ⟨?_, ?_, ?_⟩
  · intro st n hmatch
    simp only [handleAnimationChange]
    rw [hmatch]
  · intro st n h1 h2
    simp only [handleAnimationChange]
    rw [h1, h2]
  · intro st h1 h2
    simp only [handleAnimationChange]
    rw [h1, h2]

/-- C5 (witness). -/
theorem handleAnimationChange_cases_witness :
    handleAnimationChange "talking" ⟨["Talking_1", "Idle_A"], ["Idle_A"]⟩
      = ⟨["Talking_1", "Idle_A"], ["Talking_1"]⟩ ∧
    handleAnimationChange "listening" ⟨["Talking_1", "Idle_A"], ["Talking_1"]⟩
      = ⟨["Talking_1", "Idle_A"], ["Idle_A"]⟩ ∧
    handleAnimationChange "listening" ⟨["walk"], ["walk"]⟩ = ⟨["walk"], []⟩ := by
  refine ⟨?_, ?_, ?_⟩
  · exact (handleAnimationChange_cases "talking").1 ⟨["Talking_1", "Idle_A"], ["Idle_A"]⟩
      "Talking_1" (by decide)
  · exact (handleAnimationChange_cases "listening").2.1
      ⟨["Talking_1", "Idle_A"], ["Talking_1"]⟩ "Idle_A" (by decide) (by decide)
  · exact (handleAnimationChange_cases "listening").2.2 ⟨["walk"], ["walk"]⟩
      (by decide) (by decide)

/-! ### Lemmas about mesh writes -/

theorem setWeight_has (m : Mesh) (k : Channel) (v : ℝ) :
    (setWeight m k v).has = m.has := by
  unfold setWeight; split <;> rfl

theorem setWeight_infl_self (m : Mesh) (k : Channel) (v : ℝ) (h : m.has k = true) :
    (setWeight m k v).infl k = v := by
  simp [setWeight, h]

theorem setWeight_infl_ne (m : Mesh) (k x : Channel) (v : ℝ) (h : x ≠ k) :
    (setWeight m k v).infl x = m.infl x := by
  unfold setWeight; split <;> simp [h]

/-- The channel weight the expression pass leaves on each expression
channel: the matched emotion's static override, 0 everywhere else. -/
noncomputable def expressionValue (e : String) (k : Channel) : ℝ :=
  if e = "happy" ∧ (k = "mouthSmileLeft" ∨ k = "mouthSmileRight") then 7/10
  else if e = "sad" ∧ (k = "mouthFrownLeft" ∨ k = "mouthFrownRight") then 5/10
  else if e = "surprised" ∧ k = "jawOpen" then 3/10
  else if e = "surprised" ∧ (k = "eyeWideLeft" ∨ k = "eyeWideRight") then 8/10
  else 0

theorem emotionPass_has (e : String) (m : Mesh) : (emotionPass e m).has = m.has := by
  unfold emotionPass
  split_ifs <;> simp [emotionTargets, List.foldl, setWeight_has]

theorem emotionPass_infl (e : String) (m : Mesh) (hm : ∀ c, m.has c = true)
    (k : Channel) (hk : k ∈ emotionTargets) :
    (emotionPass e m).infl k = expressionValue e k := by
  have hsw : ∀ (m' : Mesh) (c : Channel) (v : ℝ), (setWeight m' c v).has = m'.has :=
    setWeight_has
  unfold emotionPass
  simp only [emotionTargets, List.mem_cons, List.not_mem_nil, or_false] at hk
  split_ifs with h1 h2 h3 <;>
    rcases hk with hk | hk | hk | hk | hk | hk | hk <;>
    subst hk <;>
    simp [expressionValue, emotionTargets, List.foldl, setWeight_infl_self,
      setWeight_infl_ne, setWeight_has, hm, *]

/-- C9. The expression effect first resets the seven expression
channels to 0 and then applies the matched emotion's static override:
emotion "surprised" sets the eye-wide channels to 0.8 and jaw-open to
0.3 with every other expression channel at 0 (regardless of their prior
values), and any tag outside {happy, sad, surprised} leaves all seven
expression channels at 0. -/
theorem expression_layer_reset_and_override (m : Mesh) (hm : ∀ c, m.has c = true) :
    ((emotionPass "surprised" m).infl "eyeWideLeft" = 8/10 ∧
     (emotionPass "surprised" m).infl "eyeWideRight" = 8/10 ∧
     (emotionPass "surprised" m).infl "jawOpen" = 3/10 ∧
     (emotionPass "surprised" m).infl "mouthSmileLeft" = 0 ∧
     (emotionPass "surprised" m).infl "mouthSmileRight" = 0 ∧
     (emotionPass "surprised" m).infl "mouthFrownLeft" = 0 ∧
     (emotionPass "surprised" m).infl "mouthFrownRight" = 0) ∧
    (∀ e : String, ¬ e ∈ ["happy", "sad", "surprised"] →
      ∀ k ∈ emotionTargets, (emotionPass e m).infl k = 0) := by
  constructor
  · refine ⟨?_, ?_, ?_, ?_, ?_, ?_, ?_⟩ <;>
      rw [emotionPass_infl "surprised" m hm _ (by simp [emotionTargets])] <;>
      simp [expressionValue]
  · intro e he k hk
    simp only [List.mem_cons, List.not_mem_nil, or_false] at he
    push_neg at he
    obtain ⟨h1, h2, h3⟩ := he
    rw [emotionPass_infl e m hm k hk]
    simp [expressionValue, h1, h2, h3]

/-- C9 (witness). -/
theorem expression_layer_reset_and_override_witness :
    (∀ c : Channel, allZeroMesh.has c = true) ∧
    (emotionPass "surprised" allZeroMesh).infl "eyeWideLeft" = 8/10 ∧
    ¬ "angry" ∈ ["happy", "sad", "surprised"] ∧
    "jawOpen" ∈ emotionTargets ∧
    (emotionPass "angry" allZeroMesh).infl "jawOpen" = 0 := by
  have hm : ∀ c : Channel, allZeroMesh.has c = true := fun _ => rfl
  have main := expression_layer_reset_and_override allZeroMesh hm
  exact ⟨hm, main.1.1, by decide, by simp [emotionTargets],
    main.2 "angry" (by decide) "jawOpen" (by simp [emotionTargets])⟩

/-! ### Lemmas for the per-frame pass composition -/

theorem lipSyncPass_has (lip : List (Channel × ℝ)) (m : Mesh) :
    (lipSyncPass lip m).has = m.has := by
  induction lip generalizing m with
  | nil => rfl
  | cons p rest ih => rw [lipSyncPass, List.foldl_cons, ← lipSyncPass, ih, setWeight_has]

theorem lipSyncPass_infl_not_mem (lip : List (Channel × ℝ)) (m : Mesh) (k : Channel)
    (h : ¬ k ∈ lip.map Prod.fst) :
    (lipSyncPass lip m).infl k = m.infl k := by
  induction lip generalizing m with
  | nil => rfl
  | cons p rest ih =>
    simp only [List.map_cons, List.mem_cons] at h
    push_neg at h
    rw [lipSyncPass, List.foldl_cons, ← lipSyncPass, ih _ h.2,
      setWeight_infl_ne _ _ _ _ h.1]

theorem lipSyncPass_infl_mem (lip : List (Channel × ℝ)) (m : Mesh) (k : Channel) (v : ℝ)
    (hm : ∀ c, m.has c = true) (hnd : (lip.map Prod.fst).Nodup) (hkv : (k, v) ∈ lip) :
    (lipSyncPass lip m).infl k = v := by
  induction lip generalizing m with
  | nil => cases hkv
  | cons p rest ih =>
    simp only [List.map_cons, List.nodup_cons] at hnd
    rcases List.mem_cons.mp hkv with hkv | hkv
    · subst hkv
      rw [lipSyncPass, List.foldl_cons, ← lipSyncPass,
        lipSyncPass_infl_not_mem rest _ k (fun hc => hnd.1 hc),
        setWeight_infl_self _ _ _ (hm k)]
    · rw [lipSyncPass, List.foldl_cons, ← lipSyncPass]
      exact ih (setWeight m p.1 p.2) (by rw [setWeight_has]; exact hm) hnd.2 hkv

theorem emotionPass_infl_not_mem (e : String) (m : Mesh) (k : Channel)
    (hk : ¬ k ∈ emotionTargets) :
    (emotionPass e m).infl k = m.infl k := by
  simp only [emotionTargets, List.mem_cons, List.not_mem_nil, or_false] at hk
  push_neg at hk
  obtain ⟨n1, n2, n3, n4, n5, n6, n7⟩ := hk
  unfold emotionPass
  split_ifs <;>
    simp [emotionTargets, List.foldl, setWeight_infl_ne, n1, n2, n3, n4, n5, n6, n7]

theorem blinkPass_has (t : ℚ) (m : Mesh) : (blinkPass t m).has = m.has := by
  unfold blinkPass; split <;> simp [setWeight_has]

theorem blinkPass_infl_ne (t : ℚ) (m : Mesh) (k : Channel)
    (h1 : k ≠ "eyeBlinkLeft") (h2 : k ≠ "eyeBlinkRight") :
    (blinkPass t m).infl k = m.infl k := by
  unfold blinkPass
  split
  · rw [setWeight_infl_ne _ _ _ _ h2, setWeight_infl_ne _ _ _ _ h1]
  · rfl

theorem blinkPass_not_inWindow (t : ℚ) (m : Mesh) (h : ¬ inWindow t) :
    blinkPass t m = m := by
  unfold blinkPass
  rw [if_neg h]

theorem blinkPass_infl_eyes (t : ℚ) (m : Mesh) (hm : ∀ c, m.has c = true)
    (h : inWindow t) :
    (blinkPass t m).infl "eyeBlinkLeft" = blinkAmount t ∧
    (blinkPass t m).infl "eyeBlinkRight" = blinkAmount t := by
  unfold blinkPass
  rw [if_pos h]
  constructor
  · rw [setWeight_infl_ne _ _ _ _ (by decide), setWeight_infl_self _ _ _ (hm _)]
  · rw [setWeight_infl_self]
    rw [setWeight_has]
    exact hm _

/-! ### Claim theorems for the compositor -/

/-- C3 (counterexample): the lip-sync value does not win over the
expression value on a channel present in both. With lip-sync output
`{jawOpen: 0.49}` (speaking "aa") and emotion "surprised" (whose
expression output also contains jawOpen, at 0.3), after a frame in
which all passes run the mesh holds jawOpen = 0.3 — the expression
value, not the lip-sync value 0.49 the claimed precedence requires. -/
theorem compositor_precedence_counterexample :
    (frame "surprised" [("jawOpen", 49/100)] 1 allZeroMesh).infl "jawOpen" = 3/10 ∧
    (3/10 : ℝ) ≠ 49/100 := by
  have hphase : blinkPhase 1 = 1/3 := by
    norm_num [blinkPhase, blinkFrequency]
  have hnw : ¬ inWindow 1 := by
    rw [inWindow, hphase]
    norm_num [windowFrac, blinkDuration, blinkFrequency]
  have hm : ∀ c, (lipSyncPass [("jawOpen", (49:ℝ)/100)] allZeroMesh).has c = true := by
    rw [lipSyncPass_has]; intro c; rfl
  constructor
  · rw [frame, blinkPass_not_inWindow _ _ hnw,
      emotionPass_infl "surprised" _ hm "jawOpen" (by simp [emotionTargets])]
    simp [expressionValue]
  · norm_num

/-- C3 (amended): when the three mesh-writing passes all run in one
frame they run in program order — lip-sync effect, then expression
effect, then blink — so on the seven expression channels the expression
value wins (overwriting any lip-sync value, e.g. jawOpen while speaking
with emotion "surprised"); the blink value overwrites the two
eye-closure channels only while inside the active blink window (outside
it they are left untouched); and on all other channels the lip-sync
value wins over the prior mesh contents, channels it does not list
keeping their prior value. -/
theorem compositor_pass_order (e : String) (lip : List (Channel × ℝ)) (t : ℚ)
    (m : Mesh) (hm : ∀ c, m.has c = true) :
    (∀ k ∈ emotionTargets, (frame e lip t m).infl k = expressionValue e k) ∧
    (inWindow t →
      (frame e lip t m).infl "eyeBlinkLeft" = blinkAmount t ∧
      (frame e lip t m).infl "eyeBlinkRight" = blinkAmount t) ∧
    (¬ inWindow t → ∀ (k : Channel) (v : ℝ), ¬ k ∈ emotionTargets →
      (lip.map Prod.fst).Nodup → (k, v) ∈ lip →
      (frame e lip t m).infl k = v) ∧
    (¬ inWindow t → ∀ k : Channel, ¬ k ∈ emotionTargets →
      ¬ k ∈ lip.map Prod.fst → (frame e lip t m).infl k = m.infl k) := by
  have hlm : ∀ c, (lipSyncPass lip m).has c = true := by
    rw [lipSyncPass_has]; exact hm
  refine ⟨?_, ?_, ?_, ?_⟩
  · intro k hk
    have hne1 : k ≠ "eyeBlinkLeft" := by
      intro hc; subst hc; revert hk; decide
    have hne2 : k ≠ "eyeBlinkRight" := by
      intro hc; subst hc; revert hk; decide
    rw [frame, blinkPass_infl_ne _ _ _ hne1 hne2, emotionPass_infl e _ hlm k hk]
  · intro ht
    have hem : ∀ c, (emotionPass e (lipSyncPass lip m)).has c = true := by
      rw [emotionPass_has]; exact hlm
    exact blinkPass_infl_eyes t _ hem ht
  · intro ht k v hke hnd hkv
    rw [frame, blinkPass_not_inWindow _ _ ht, emotionPass_infl_not_mem e _ k hke,
      lipSyncPass_infl_mem lip m k v hm hnd hkv]
  · intro ht k hke hkl
    rw [frame, blinkPass_not_inWindow _ _ ht, emotionPass_infl_not_mem e _ k hke,
      lipSyncPass_infl_not_mem lip m k hkl]

/-- C3 (witness). -/
theorem compositor_pass_order_witness :
    (∀ c : Channel, allZeroMesh.has c = true) ∧
    "jawOpen" ∈ emotionTargets ∧
    (frame "surprised" [("mouthFunnel", (1:ℝ)/5)] 1 allZeroMesh).infl "jawOpen"
      = expressionValue "surprised" "jawOpen" := by
  have hm : ∀ c : Channel, allZeroMesh.has c = true := fun _ => rfl
  have hk : "jawOpen" ∈ emotionTargets := by simp [emotionTargets]
  exact ⟨hm, hk,
    (compositor_pass_order "surprised" [("mouthFunnel", 1/5)] 1 allZeroMesh hm).1
      "jawOpen" hk⟩

/-! ### Lemmas for the blink layer -/

theorem blinkPhase_eq_fract (t : ℚ) : blinkPhase t = Int.fract (t / 3) := by
  unfold blinkPhase blinkFrequency Int.fract
  field_simp

theorem blinkPhase_nonneg (t : ℚ) : 0 ≤ blinkPhase t := by
  rw [blinkPhase_eq_fract]
  exact Int.fract_nonneg _

theorem windowFrac_eq : windowFrac = 1/20 := by
  norm_num [windowFrac, blinkDuration, blinkFrequency]

theorem pulse_eq_sin (p : ℚ) : pulse p = Real.sin (20 * (p : ℝ) * Real.pi) := by
  unfold pulse
  rw [windowFrac_eq]
  push_cast
  congr 1
  ring

theorem pulse_nonneg (p : ℚ) (h0 : 0 ≤ p) (h1 : p < windowFrac) : 0 ≤ pulse p := by
  rw [pulse_eq_sin]
  apply Real.sin_nonneg_of_nonneg_of_le_pi
  · have : (0:ℝ) ≤ (p:ℝ) := by exact_mod_cast h0
    positivity
  · rw [windowFrac_eq] at h1
    have hp : (p:ℝ) < 1/20 := by
      have := (Rat.cast_lt (K := ℝ)).mpr h1
      push_cast at this
      linarith
    nlinarith [Real.pi_pos]

theorem pulse_strictMono (p q : ℚ) (h0 : 0 ≤ p) (hpq : p < q) (hq : q ≤ windowFrac/2) :
    pulse p < pulse q := by
  rw [pulse_eq_sin, pulse_eq_sin]
  rw [windowFrac_eq] at hq
  have h0R : (0:ℝ) ≤ (p:ℝ) := by exact_mod_cast h0
  have hpqR : (p:ℝ) < (q:ℝ) := by exact_mod_cast hpq
  have hqR : (q:ℝ) ≤ 1/40 := by
    have := (Rat.cast_le (K := ℝ)).mpr hq
    push_cast at this
    linarith
  have pi_pos := Real.pi_pos
  apply Real.strictMonoOn_sin
  · constructor
    · nlinarith
    · nlinarith
  · constructor
    · nlinarith
    · nlinarith
  · nlinarith

theorem pulse_strictAnti (p q : ℚ) (hp : windowFrac/2 ≤ p) (hpq : p < q)
    (hq : q < windowFrac) : pulse q < pulse p := by
  rw [pulse_eq_sin, pulse_eq_sin]
  rw [windowFrac_eq] at hq
  have hp40 : (1:ℚ)/40 ≤ p := by rw [windowFrac_eq] at hp; linarith
  have hpR : (1:ℝ)/40 ≤ (p:ℝ) := by
    have := (Rat.cast_le (K := ℝ)).mpr hp40
    push_cast at this
    linarith
  have hpqR : (p:ℝ) < (q:ℝ) := by exact_mod_cast hpq
  have hqR : (q:ℝ) < 1/20 := by
    have := (Rat.cast_lt (K := ℝ)).mpr hq
    push_cast at this
    linarith
  have pi_pos := Real.pi_pos
  rw [← Real.sin_pi_sub (20 * (q:ℝ) * Real.pi), ← Real.sin_pi_sub (20 * (p:ℝ) * Real.pi)]
  apply Real.strictMonoOn_sin
  · constructor
    · nlinarith
    · nlinarith
  · constructor
    · nlinarith
    · nlinarith
  · nlinarith

/-! ### Claim theorem for the blink layer -/

/-- C6. With period 3s and active window 0.15s: inside the active
window (`phase < D/P` for `phase = (t mod P)/P`) the blink weight equals
`sin(phase · P/D · π)`; the weight always lies in [0,1]; it is exactly 0
outside the active window; it peaks at exactly 1 at the window midpoint
(phase = (D/P)/2) and is a single unimodal pulse — strictly increasing
up to the midpoint and strictly decreasing after it; and the same value
is written identically to both eye-closure channels. -/
theorem blink_pulse_shape (t t1 t2 : ℚ) (m : Mesh) (hm : ∀ c, m.has c = true) :
    (inWindow t → blinkWeight t
      = Real.sin ((blinkPhase t : ℝ) * ((blinkFrequency : ℚ) : ℝ)
          / ((blinkDuration : ℚ) : ℝ) * Real.pi)) ∧
    (0 ≤ blinkWeight t ∧ blinkWeight t ≤ 1) ∧
    (¬ inWindow t → blinkWeight t = 0) ∧
    (blinkPhase t = windowFrac/2 → blinkWeight t = 1) ∧
    (blinkPhase t1 < blinkPhase t2 → blinkPhase t2 ≤ windowFrac/2 →
      blinkWeight t1 < blinkWeight t2) ∧
    (windowFrac/2 ≤ blinkPhase t1 → blinkPhase t1 < blinkPhase t2 →
      blinkPhase t2 < windowFrac → blinkWeight t2 < blinkWeight t1) ∧
    (inWindow t → (blinkPass t m).infl "eyeBlinkLeft" = blinkWeight t ∧
      (blinkPass t m).infl "eyeBlinkRight" = blinkWeight t) := by
  have hwf2 : windowFrac/2 < windowFrac := by rw [windowFrac_eq]; norm_num
  refine ⟨?_, ?_, ?_, ?_, ?_, ?_, ?_⟩
  · intro h
    rw [blinkWeight, if_pos h, blinkAmount, pulse_eq_sin]
    have hP : ((blinkFrequency : ℚ) : ℝ) = 3 := by norm_num [blinkFrequency]
    have hD : ((blinkDuration : ℚ) : ℝ) = 15/100 := by norm_num [blinkDuration]
    rw [hP, hD]
    ring_nf
  · unfold blinkWeight
    split
    · rename_i h
      constructor
      · rw [blinkAmount]
        exact pulse_nonneg _ (blinkPhase_nonneg t) h
      · rw [blinkAmount, pulse_eq_sin]; exact Real.sin_le_one _
    · norm_num
  · intro h
    rw [blinkWeight, if_neg h]
  · intro h
    have hin : inWindow t := by rw [inWindow, h]; exact hwf2
    rw [blinkWeight, if_pos hin, blinkAmount, h, pulse_eq_sin]
    have harg : 20 * ((windowFrac/2 : ℚ) : ℝ) * Real.pi = Real.pi / 2 := by
      rw [windowFrac_eq]
      push_cast
      ring
    rw [harg, Real.sin_pi_div_two]
  · intro h12 h2
    have h1w : inWindow t1 := by
      rw [inWindow]; exact lt_of_lt_of_le h12 (le_of_lt (lt_of_le_of_lt h2 hwf2))
    have h2w : inWindow t2 := by
      rw [inWindow]; exact lt_of_le_of_lt h2 hwf2
    rw [blinkWeight, if_pos h1w, blinkWeight, if_pos h2w]
    exact pulse_strictMono _ _ (blinkPhase_nonneg t1) h12 h2
  · intro h1 h12 h2
    have h1w : inWindow t1 := by
      rw [inWindow]; exact lt_trans h12 h2
    have h2w : inWindow t2 := by
      rw [inWindow]; exact h2
    rw [blinkWeight, if_pos h2w, blinkWeight, if_pos h1w]
    exact pulse_strictAnti _ _ h1 h12 h2
  · intro h
    have hb := blinkPass_infl_eyes t m hm h
    rw [blinkWeight, if_pos h]
    exact hb

/-- C6 (witness). -/
theorem blink_pulse_shape_witness :
    (∀ c : Channel, allZeroMesh.has c = true) ∧
    blinkPhase (3/40) = windowFrac/2 ∧
    blinkWeight (3/40) = 1 ∧
    (¬ inWindow 1) ∧ blinkWeight 1 = 0 ∧
    blinkPhase (3/100) < blinkPhase (3/40) ∧
    blinkWeight (3/100) < blinkWeight (3/40) := by
  have hm : ∀ c : Channel, allZeroMesh.has c = true := fun _ => rfl
  have hmid : blinkPhase (3/40) = windowFrac/2 := by
    rw [windowFrac_eq, blinkPhase, blinkFrequency]
    norm_num
  have hsmall : blinkPhase (3/100 : ℚ) = 1/100 := by
    rw [blinkPhase, blinkFrequency]
    norm_num
  have hone : blinkPhase (1 : ℚ) = 1/3 := by
    rw [blinkPhase, blinkFrequency]
    norm_num
  have hnw : ¬ inWindow 1 := by
    rw [inWindow, hone, windowFrac_eq]
    norm_num
  have hlt : blinkPhase (3/100) < blinkPhase (3/40) := by
    rw [hsmall, hmid, windowFrac_eq]; norm_num
  have hle : blinkPhase (3/40 : ℚ) ≤ windowFrac/2 := le_of_eq hmid
  have main := blink_pulse_shape (3/40) (3/100) (3/40) allZeroMesh hm
  have main1 := blink_pulse_shape 1 (3/100) (3/40) allZeroMesh hm
  exact ⟨hm, hmid, main.2.2.2.1 hmid, hnw, main1.2.2.1 hnw, hlt,
    main.2.2.2.2.1 hlt hle⟩

end AIDesktop
